import Mathlib

/-!
Verification of `katello_certs_tools/rhn_rpm.py`.

The Python module is shallowly embedded below: the seekable byte source
(a Python file object) becomes an explicit `ByteSource` state, bytes
become `Fin 256`, fallible operations return `Except String`, and Python
truthiness of optional byte strings is spelled out.  Each definition is a
line-by-line translation of the corresponding Python function; the only
definitions not taken from the source are marked `Modelled from the spec:`
in their doc comments (they stand for code of the external `rpm` library
that the module calls but this repository does not contain).
-/

/-- A single byte, as stored in a Python `bytes` object (always 0..255). -/
abbrev Byte := Fin 256

/-- A Python `bytes` value. -/
abbrev Bytes := List Byte

/-- A seekable, readable byte source (models the Python file object
`package_file`): the underlying data plus the current read cursor. -/
structure ByteSource where
  data : Bytes
  pos : Nat
deriving DecidableEq

/-- `file.seek(n)` — absolute seek (whence 0). -/
def bs_seek (n : Nat) (s : ByteSource) : ByteSource :=
  { s with pos := n }

/-- `file.seek(n, 1)` — seek relative to the current position. -/
def bs_seekRel (n : Nat) (s : ByteSource) : ByteSource :=
  { s with pos := s.pos + n }

/-- `file.read(n)`: returns up to `n` bytes from the cursor (fewer at end
of data) and advances the cursor by the number of bytes actually read. -/
def bs_read (n : Nat) (s : ByteSource) : Bytes × ByteSource :=
  let r := (s.data.drop s.pos).take n
  (r, { s with pos := s.pos + r.length })

/-- `struct.unpack('>I', b)`: requires exactly 4 bytes, decodes them as a
big-endian unsigned 32-bit integer; otherwise raises `struct.error`. -/
def unpackBE4 (b : Bytes) : Except String Nat :=
  if b.length = 4 then
    .ok (b.foldl (fun a c => a * 256 + c.val) 0)
    else
    .error "struct.error: unpack requires a buffer of 4 bytes"

/-- The big-endian 32-bit value stored at offset `i` of `data` (the value
`struct.unpack('>I', data[i:i+4])` would yield when 4 bytes are there). -/
def be4at (data : Bytes) (i : Nat) : Nat :=
  ((data.drop i).take 4).foldl (fun a c => a * 256 + c.val) 0

/-- Translation of `get_header_struct_size(package_file)`
(src/katello_certs_tools/rhn_rpm.py lines 157-181): skip 8 preamble bytes,
read the 4-byte big-endian index-entry count and the 4-byte big-endian
store size, compute `8 + 4 + 4 + index*16 + store`, and round up to the
next multiple of 8.  Returns the size together with the byte source in its
post-call state. -/
def get_header_struct_size (package_file : ByteSource) : Except String (Nat × ByteSource) := do
  -- package_file.seek(8, 1)
  let pf := bs_seekRel 8 package_file
  -- header_index = package_file.read(4); struct.unpack('>I', header_index)
  let (header_index, pf) := bs_read 4 pf
  let header_index_value ← unpackBE4 header_index
  -- header_store = package_file.read(4); struct.unpack('>I', header_store)
  let (header_store, pf) := bs_read 4 pf
  let header_store_value ← unpackBE4 header_store
  let header_size := 8 + 4 + 4 + header_index_value * 16 + header_store_value
  let round_out := header_size % 8
  let header_size := if round_out ≠ 0 then header_size + (8 - round_out) else header_size
  return (header_size, pf)

/-- Translation of `get_header_byte_range(package_file)`
(src/katello_certs_tools/rhn_rpm.py lines 130-154): skip the 96-byte lead,
size the signature header, seek past it, size the main header, and return
the main header's `(start, end)` byte offsets. -/
def get_header_byte_range (package_file : ByteSource) : Except String (Nat × Nat) := do
  let lead_size := 96
  -- package_file.seek(lead_size)
  let pf := bs_seek lead_size package_file
  let (sig_size, pf) ← get_header_struct_size pf
  let header_start := lead_size + sig_size
  -- package_file.seek(header_start)
  let pf := bs_seek header_start pf
  let (header_size, _pf) ← get_header_struct_size pf
  let header_end := header_start + header_size
  return (header_start, header_end)

/-- One lowercase hexadecimal digit, as produced by Python's `"%x"`
formatting: values 0..9 map to `'0'..'9'`, 10..15 to `'a'..'f'`. -/
def hexDigit (n : Nat) : Char :=
  if n < 10 then Char.ofNat (48 + n) else Char.ofNat (87 + n)

/-- `"%02x" % b` for one byte `b`: exactly two lowercase hex digits. -/
def hexByte (b : Byte) : List Char :=
  [hexDigit (b.val / 16), hexDigit (b.val % 16)]

/-- `("%02x" * n) % t` over a byte tuple, as in `_extract_signatures`:
each byte rendered as two lowercase hex digits, concatenated with no
separator. -/
def hexBytes (bs : Bytes) : String :=
  String.mk (bs.map hexByte).flatten

/-- One entry appended to `self.signatures`
(src/katello_certs_tools/rhn_rpm.py lines 123-127). -/
structure SignatureRecord where
  signature_type : String
  key_id : String
  signature : Bytes
deriving DecidableEq

/-- The decoded rpm header tag values that `RPM_Header` reads.  Decoding
raw bytes into tag values is done by the external `rpm` library; the model
keeps just the tags the module consumes: the four raw signature values
(`None` for an absent tag) and the integer `RPMTAG_FILEDIGESTALGO` value. -/
structure RPM_Header where
  dsaheader : Option Bytes
  rsaheader : Option Bytes
  siggpg : Option Bytes
  sigpgp : Option Bytes
  filedigestalgo : Option Nat
deriving DecidableEq

/-- The key-id slice selection of `RPM_Header._extract_signatures`
(src/katello_certs_tools/rhn_rpm.py lines 109-116), for a raw value of
length ≥ 17: `ret[9:17]` when `len(ret) <= 65`, `ret[18:26]` when
`len(ret) <= 72`, `ret[10:18]` when `len(ret) <= 536`, else `ret[19:27]`.
Python's `ret[i:j]` is `(ret.drop i).take (j - i)`. -/
def keyIdSlice (ret : Bytes) : Bytes :=
  if ret.length ≤ 65 then (ret.drop 9).take 8
  else if ret.length ≤ 72 then (ret.drop 18).take 8
  else if ret.length ≤ 536 then (ret.drop 10).take 8
  else (ret.drop 19).take 8

/-- One iteration of the loop in `RPM_Header._extract_signatures`
(src/katello_certs_tools/rhn_rpm.py lines 101-127): `ret = self.hdr[ht]`;
skip when `not ret` (absent or empty) or `len(ret) < 17`; otherwise select
the key-id slice by length, render it in hex and build the record. -/
def extractOne (sig_type : String) (ret : Option Bytes) : Option SignatureRecord :=
  match ret with
  | none => none
  | some r =>
    if r.length = 0 then none        -- `if not ret: continue` (empty bytes)
    else if r.length < 17 then none  -- `if ret_len < 17: continue`
    else some ⟨sig_type, hexBytes (keyIdSlice r), r⟩

/-- Translation of `RPM_Header._extract_signatures`
(src/katello_certs_tools/rhn_rpm.py lines 94-127): iterate over the fixed
tag list `[(DSAHEADER, dsa), (RSAHEADER, rsa), (SIGGPG, gpg),
(SIGPGP, pgp)]` in order, appending one record per usable raw value. -/
def extract_signatures (hdr : RPM_Header) : List SignatureRecord :=
  ([(hdr.dsaheader, "dsa"), (hdr.rsaheader, "rsa"),
    (hdr.siggpg, "gpg"), (hdr.sigpgp, "pgp")]).filterMap
    fun p => extractOne p.2 p.1

/-- The `PGPHASHALGO` table (src/katello_certs_tools/rhn_rpm.py lines
39-49), as a partial map from the integer tag value to the algorithm
name. -/
def PGPHASHALGO (n : Nat) : Option String :=
  match n with
  | 1 => some "md5"
  | 2 => some "sha1"
  | 3 => some "ripemd160"
  | 5 => some "md2"
  | 6 => some "tiger192"
  | 7 => some "haval-5-160"
  | 8 => some "sha256"
  | 9 => some "sha384"
  | 10 => some "sha512"
  | _ => none

/-- Translation of `RPM_Header.checksum_type`
(src/katello_certs_tools/rhn_rpm.py lines 77-83).  The guard is
`if self.hdr[FILEDIGESTALGO] and self.hdr[FILEDIGESTALGO].decode('utf-8') in PGPHASHALGO`.
`RPMTAG_FILEDIGESTALGO` is an integer tag, so the stored value is a Python
int (or `None` when absent).  `None` and `0` are falsy, so the `and`
short-circuits and the else branch yields `'md5'`.  For any truthy
(nonzero) integer value the guard evaluates `value.decode('utf-8')`, and a
Python int has no `decode` attribute (in Python 2 or 3), so the call
raises `AttributeError` instead of consulting the table. -/
def checksum_type (hdr : RPM_Header) : Except String String :=
  match hdr.filedigestalgo with
  | none => .ok "md5"
  | some 0 => .ok "md5"
  | some (_ + 1) => .error "AttributeError: int object has no attribute decode"

/-- Python truthiness of an optional byte string: `None` and `b''` are
falsy, a non-empty `bytes` is truthy. -/
def truthyBytes : Option Bytes → Bool
  | none => false
  | some b => !b.isEmpty

/-- Translation of `RPM_Header.is_signed`
(src/katello_certs_tools/rhn_rpm.py lines 85-92).  Every rpm build with
the tag constants this module already relies on defines `RPMTAG_DSAHEADER`,
so `hasattr(rpm, "RPMTAG_DSAHEADER")` holds and `dsaheader` is read from
the header.  Returns 1 when `siggpg or sigpgp or dsaheader` is truthy,
else 0; the rsa header is never consulted. -/
def is_signed (hdr : RPM_Header) : Nat :=
  if truthyBytes hdr.siggpg || truthyBytes hdr.sigpgp || truthyBytes hdr.dsaheader then 1
  else 0

/-- Characters the rpm segment algorithm keeps: alphanumerics and the
tilde; everything else is a separator. -/
def isVerChar (c : Char) : Bool :=
  c.isAlphanum || c == '~'

/-- C `strcmp` on two character lists: lexicographic by code point, a
proper prefix sorting below its extensions. -/
def strcmpChars : List Char → List Char → Ordering
  | [], [] => .eq
  | [], _ :: _ => .lt
  | _ :: _, [] => .gt
  | c :: cs, d :: ds =>
    if c < d then .lt
    else if d < c then .gt
    else strcmpChars cs ds

/-- Numeric comparison of two digit runs: strip leading zeros, a longer
remainder is the larger number, equal lengths compare lexically. -/
def cmpDigitRuns (s1 s2 : List Char) : Ordering :=
  let t1 := s1.dropWhile (· == '0')
  let t2 := s2.dropWhile (· == '0')
  if t1.length < t2.length then .lt
  else if t2.length < t1.length then .gt
  else strcmpChars t1 t2

/-- Modelled from the spec: the segment algorithm of §4.4, which the
external rpm library implements as `rpmvercmp` (the repository calls it
through `rpm.labelCompare` but does not contain it).  Repeatedly strip
separators; a tilde sorts below everything including end-of-string; an
exhausted string loses to a non-exhausted one; a digit segment beats an
alphabetic one; digit segments compare numerically, alphabetic ones
lexically; on a tie, continue past both segments. -/
def rpmvercmp (a b : List Char) : Ordering :=
  let one := a.dropWhile fun c => !isVerChar c
  let two := b.dropWhile fun c => !isVerChar c
  match h1 : one, h2 : two with
  | '~' :: o, '~' :: t => rpmvercmp o t
  | '~' :: _, _ => .lt
  | _, '~' :: _ => .gt
  | [], [] => .eq
  | [], _ :: _ => .lt
  | _ :: _, [] => .gt
  | c1 :: r1, c2 :: r2 =>
    if hnum : c1.isDigit then
      let seg1 := (c1 :: r1).takeWhile Char.isDigit
      let seg2 := (c2 :: r2).takeWhile Char.isDigit
      if hs2 : seg2.length = 0 then .gt
      else
        match cmpDigitRuns seg1 seg2 with
        | .eq => rpmvercmp ((c1 :: r1).drop seg1.length) ((c2 :: r2).drop seg2.length)
        | o => o
    else
      let seg1 := (c1 :: r1).takeWhile Char.isAlpha
      let seg2 := (c2 :: r2).takeWhile Char.isAlpha
      if hs1 : seg1.length = 0 then .lt
      else if hs2 : seg2.length = 0 then .lt
      else
        match strcmpChars seg1 seg2 with
        | .eq => rpmvercmp ((c1 :: r1).drop seg1.length) ((c2 :: r2).drop seg2.length)
        | o => o
termination_by a.length + b.length
decreasing_by
  · have ha : one.length ≤ a.length := (List.dropWhile_sublist _).length_le
    have hb : two.length ≤ b.length := (List.dropWhile_sublist _).length_le
    rw [h1] at ha
    rw [h2] at hb
    simp only [List.length_cons] at ha hb
    omega
  · have ha : one.length ≤ a.length := (List.dropWhile_sublist _).length_le
    have hb : two.length ≤ b.length := (List.dropWhile_sublist _).length_le
    rw [h1] at ha
    rw [h2] at hb
    simp only [List.length_cons] at ha hb
    have hseg1 : 0 < ((c1 :: r1).takeWhile Char.isDigit).length := by
      simp [List.takeWhile_cons, hnum]
    have hseg2 : ¬ ((c2 :: r2).takeWhile Char.isDigit).length = 0 := hs2
    simp only [List.length_drop, List.length_cons] at *
    omega
  · have ha : one.length ≤ a.length := (List.dropWhile_sublist _).length_le
    have hb : two.length ≤ b.length := (List.dropWhile_sublist _).length_le
    rw [h1] at ha
    rw [h2] at hb
    simp only [List.length_cons] at ha hb
    have hseg1 : ¬ ((c1 :: r1).takeWhile Char.isAlpha).length = 0 := hs1
    have hseg2 : ¬ ((c2 :: r2).takeWhile Char.isAlpha).length = 0 := hs2
    simp only [List.length_drop, List.length_cons] at *
    omega

/-- An epoch/version/release triple as handed to `rpm.labelCompare`; a
`none` epoch is a missing epoch. -/
structure Evr where
  epoch : Option String
  version : String
  release : String
deriving DecidableEq

/-- Modelled from the spec: `rpm.labelCompare` of the external rpm
library (the repository calls it but does not contain it).  Per §4.4
Step 1: epochs compare first — both missing ties, a missing epoch always
loses to any present epoch (even `"0"`), two present epochs compare with
the segment algorithm; on an epoch tie the versions compare, then the
releases. -/
def labelCompare (e1 e2 : Evr) : Ordering :=
  let ec :=
    match e1.epoch, e2.epoch with
    | none, none => Ordering.eq
    | none, some _ => Ordering.lt
    | some _, none => Ordering.gt
    | some x, some y => rpmvercmp x.data y.data
  match ec with
  | .eq =>
    match rpmvercmp e1.version.data e2.version.data with
    | .eq => rpmvercmp e1.release.data e2.release.data
    | o => o
  | o => o

/-- An NVRE tuple `(name, version, release, epoch)` as consumed by
`nvre_compare`: `t[0]` is the name, `t[1]` the version, `t[2]` the
release, `t[3]` the epoch (the empty string standing for a missing
epoch; the tuple fields are strings, on which Python's `str` is the
identity). -/
structure NVRE where
  name : String
  version : String
  release : String
  epoch : String
deriving DecidableEq

/-- A Python 3 `map` object: the lazy iterator returned by `map(str, ...)`. -/
structure PyMapObject where
  items : List String
deriving DecidableEq

/-- Subscripting a Python 3 `map` object.  `map` objects are iterators
and do not support `[]`, so `evr[0]` raises
`TypeError: map object is not subscriptable`. -/
def PyMapObject.getitem (_m : PyMapObject) (_i : Nat) : Except String String :=
  .error "TypeError: map object is not subscriptable"

/-- Translation of the local `build_evr(p)` inside `nvre_compare`
(src/katello_certs_tools/rhn_rpm.py lines 274-279), under the Python 3
semantics this module targets (its other functions decode `bytes` header
values, a Python 3 port artifact): `evr = [p[3], p[1], p[2]]` builds the
list, `evr = map(str, evr)` rebinds it to a lazy map object (`str` is the
identity on these string fields), and the guard `if evr[0] == "":` then
subscripts that map object, raising `TypeError` before anything is
returned. -/
def build_evr (p : NVRE) : Except String Evr := do
  let evr := [p.epoch, p.version, p.release]
  let evrMapped : PyMapObject := ⟨evr.map id⟩
  let e0 ← evrMapped.getitem 0
  return ⟨if e0 = "" then none else some e0, p.version, p.release⟩

/-- Translation of `nvre_compare(t1, t2)`
(src/katello_certs_tools/rhn_rpm.py lines 273-283): raise `ValueError`
when the two names differ, otherwise build both EVR triples with
`build_evr` and compare them with `rpm.labelCompare`.  The Python integer
results -1/0/1 are `Ordering.lt`/`.eq`/`.gt` here. -/
def nvre_compare (t1 t2 : NVRE) : Except String Ordering := do
  if t1.name ≠ t2.name then
    .error "ValueError: You should only compare packages with the same name"
  else do
    let evr1 ← build_evr t1
    let evr2 ← build_evr t2
    return labelCompare evr1 evr2


lemma take4_length (l : Bytes) (i : Nat) (h : i + 4 ≤ l.length) :
    ((l.drop i).take 4).length = 4 := by
  simp [List.length_take, List.length_drop]
  omega

lemma unpackBE4_take (l : Bytes) (i : Nat) (h : i + 4 ≤ l.length) :
    unpackBE4 ((l.drop i).take 4) = .ok (be4at l i) := by
  unfold unpackBE4 be4at
  rw [if_pos (take4_length l i h)]

lemma get_header_struct_size_eval (data : Bytes) (pos : Nat) (h : pos + 16 ≤ data.length) :
    get_header_struct_size ⟨data, pos⟩ =
      .ok ((fun s => if s % 8 ≠ 0 then s + (8 - s % 8) else s)
             (8 + 4 + 4 + be4at data (pos + 8) * 16 + be4at data (pos + 12)),
           ⟨data, pos + 16⟩) := by
  have h1 : (pos + 8) + 4 ≤ data.length := by omega
  have h2 : (pos + 12) + 4 ≤ data.length := by omega
  have l1 := take4_length data (pos + 8) h1
  have l2 := take4_length data (pos + 12) h2
  have e1 := unpackBE4_take data (pos + 8) h1
  have e2 := unpackBE4_take data (pos + 12) h2
  simp only [get_header_struct_size, bs_seekRel, bs_read, bind, Except.bind, l1, l2, e1]
  norm_num
  rw [show pos + 8 + 4 = pos + 12 by omega] at *
  simp only [e2, l2]
  norm_num
  rw [show pos + 12 + 4 = pos + 16 by omega]
  rfl

/-- Claim C1: for every byte source with at least 16 bytes available at the
current position, `get_header_struct_size` succeeds and returns
`16 + 16*index_count + store_bytes` (with `index_count` and `store_bytes`
read as 4-byte big-endian unsigned integers after an 8-byte skip) rounded
up to the next multiple of 8; the result is always a multiple of 8.
Rounding up is characterized by the three conjuncts: divisible by 8, at
least the raw size, and less than the raw size plus 8. -/
theorem get_header_struct_size_rounds (data : Bytes) (pos : Nat)
    (h : pos + 16 ≤ data.length) :
    ∃ sz s2,
      get_header_struct_size ⟨data, pos⟩ = .ok (sz, s2) ∧
      sz % 8 = 0 ∧
      16 + 16 * be4at data (pos + 8) + be4at data (pos + 12) ≤ sz ∧
      sz < 16 + 16 * be4at data (pos + 8) + be4at data (pos + 12) + 8 := by
  refine ⟨_, _, get_header_struct_size_eval data pos h, ?_, ?_, ?_⟩ <;>
    · set s := 8 + 4 + 4 + be4at data (pos + 8) * 16 + be4at data (pos + 12) with hs
      by_cases h8 : s % 8 = 0 <;> simp [h8] <;> omega

theorem get_header_struct_size_rounds_witness :
    (0 : Nat) + 16 ≤ (List.replicate 16 (0 : Byte)).length ∧
    (∃ sz s2,
      get_header_struct_size ⟨List.replicate 16 (0 : Byte), 0⟩ = .ok (sz, s2) ∧
      sz % 8 = 0 ∧
      16 + 16 * be4at (List.replicate 16 (0 : Byte)) (0 + 8) +
        be4at (List.replicate 16 (0 : Byte)) (0 + 12) ≤ sz ∧
      sz < 16 + 16 * be4at (List.replicate 16 (0 : Byte)) (0 + 8) +
        be4at (List.replicate 16 (0 : Byte)) (0 + 12) + 8) :=
  ⟨by simp, get_header_struct_size_rounds (List.replicate 16 (0 : Byte)) 0 (by simp)⟩

lemma foldl_byte_lt (l : Bytes) : ∀ init : Nat,
    l.foldl (fun a c => a * 256 + c.val) init < (init + 1) * 256 ^ l.length := by
  induction l with
  | nil => intro init; simp
  | cons c cs ih =>
    intro init
    have h1 := ih (init * 256 + c.val)
    have hc : c.val < 256 := c.isLt
    calc (c :: cs).foldl (fun a c => a * 256 + c.val) init
        = cs.foldl (fun a c => a * 256 + c.val) (init * 256 + c.val) := by simp
      _ < (init * 256 + c.val + 1) * 256 ^ cs.length := h1
      _ ≤ ((init + 1) * 256) * 256 ^ cs.length := by nlinarith
      _ = (init + 1) * 256 ^ (c :: cs).length := by ring_nf; simp [pow_succ]; ring

lemma unpackBE4_lt {b : Bytes} {v : Nat} (h : unpackBE4 b = .ok v) : v < 2 ^ 32 := by
  unfold unpackBE4 at h
  split at h
  · rename_i hlen
    have := foldl_byte_lt b 0
    rw [hlen] at this
    simp at h
    omega
  · simp at h

/-- Claim C8: the decoded `index_count` and `store_bytes` are 4-byte
big-endian fields, so every size `get_header_struct_size` can return is
below `2^64`: no input at all makes the computed header size overflow a
64-bit byte-offset accumulator, and the claimed rejection duty is
satisfied vacuously (the set of inputs it quantifies over is empty). -/
theorem get_header_struct_size_fits64 (s : ByteSource) (sz : Nat) (s2 : ByteSource)
    (h : get_header_struct_size s = .ok (sz, s2)) : sz < 2 ^ 64 := by
  unfold get_header_struct_size bs_seekRel bs_read at h
  simp only [bind, Except.bind] at h
  split at h
  · simp at h
  · rename_i v1 e1
    split at h
    · simp at h
    · rename_i v2 e2
      have b1 := unpackBE4_lt e1
      have b2 := unpackBE4_lt e2
      simp only [pure, Except.pure, Except.ok.injEq, Prod.mk.injEq] at h
      have hsz := h.1
      by_cases h8 : (8 + 4 + 4 + v1 * 16 + v2) % 8 = 0 <;> simp [h8] at hsz <;> omega

/-- Claim C9 counterexample: on a 16-byte all-zero source starting at
position 0, `get_header_struct_size` leaves the cursor at 16, not at
`0 + 12` as the claim states (the code advances 8 skipped bytes plus two
4-byte reads = 16 bytes). -/
theorem get_header_struct_size_cursor_cex :
    (get_header_struct_size ⟨List.replicate 16 (0 : Byte), 0⟩).map (fun r => r.2.pos) =
      .ok 16 ∧
    ((get_header_struct_size ⟨List.replicate 16 (0 : Byte), 0⟩).map (fun r => r.2.pos)) ≠
      .ok (0 + 12) := by
  refine ⟨rfl, ?_⟩
  intro hc
  rw [show (get_header_struct_size ⟨List.replicate 16 (0 : Byte), 0⟩).map (fun r => r.2.pos)
      = .ok 16 from rfl] at hc
  simp at hc

/-- Claim C9 (amended): for every call on a source with at least 16 bytes
available at the current position, the only observable effect of
`get_header_struct_size` on the byte source is advancing its read cursor
by exactly 16 bytes (the 8 skipped bytes plus the two 4-byte fields); the
underlying data is unchanged. -/
theorem get_header_struct_size_cursor_advance (data : Bytes) (pos : Nat)
    (h : pos + 16 ≤ data.length) :
    ∃ sz, get_header_struct_size ⟨data, pos⟩ = .ok (sz, ⟨data, pos + 16⟩) :=
  ⟨_, get_header_struct_size_eval data pos h⟩

theorem get_header_struct_size_cursor_advance_witness :
    (0 : Nat) + 16 ≤ (List.replicate 16 (0 : Byte)).length ∧
    ∃ sz, get_header_struct_size ⟨List.replicate 16 (0 : Byte), 0⟩ =
      .ok (sz, ⟨List.replicate 16 (0 : Byte), 0 + 16⟩) :=
  ⟨by simp, get_header_struct_size_cursor_advance (List.replicate 16 (0 : Byte)) 0 (by simp)⟩

lemma get_header_struct_size_data (s : ByteSource) (sz : Nat) (s2 : ByteSource)
    (h : get_header_struct_size s = .ok (sz, s2)) : s2.data = s.data := by
  unfold get_header_struct_size bs_seekRel bs_read at h
  simp only [bind, Except.bind] at h
  split at h
  · simp at h
  · split at h
    · simp at h
    · simp only [pure, Except.pure, Except.ok.injEq, Prod.mk.injEq] at h
      rw [← h.2]

/-- Claim C2: whenever `get_header_byte_range` returns a pair, the
signature header region starts at byte offset 96 with size `sig_size`
given by the size computation at 96, and the returned main-header region
is `(96 + sig_size, 96 + sig_size + header_size)` with `header_size` the
size computation at `96 + sig_size`; hence the signature region starts at
96 and the main header starts exactly at the signature region's end. -/
theorem get_header_byte_range_locates (s : ByteSource) (hs he : Nat)
    (h : get_header_byte_range s = .ok (hs, he)) :
    ∃ sig_size s1 header_size s2,
      get_header_struct_size ⟨s.data, 96⟩ = .ok (sig_size, s1) ∧
      get_header_struct_size ⟨s.data, 96 + sig_size⟩ = .ok (header_size, s2) ∧
      hs = 96 + sig_size ∧ he = 96 + sig_size + header_size := by
  unfold get_header_byte_range bs_seek at h
  simp only [bind, Except.bind] at h
  split at h
  · simp at h
  · rename_i p1 e1
    obtain ⟨sig_size, pf1⟩ := p1
    split at h
    · simp at h
    · rename_i p2 e2
      obtain ⟨header_size, pf2⟩ := p2
      simp only [pure, Except.pure, Except.ok.injEq, Prod.mk.injEq] at h
      have hd : pf1.data = s.data := get_header_struct_size_data ⟨s.data, 96⟩ _ _ e1
      rw [hd] at e2
      exact ⟨sig_size, pf1, header_size, pf2, e1, e2, h.1.symm, h.2.symm⟩

/-- Claim C4 (code bug): with the file-digest-algorithm tag value 8 the
accessor does not return `sha256` as the claim states — it raises
`AttributeError`, because line 79 calls `.decode('utf-8')` on the integer
tag value and a Python int has no `decode` method.  The `PGPHASHALGO`
table itself does map 8 to `sha256`, and the `md5` default is reached
only for the falsy values `None` and `0`. -/
theorem checksum_type_digest8_bug :
    checksum_type ⟨none, none, none, none, some 8⟩ =
      .error "AttributeError: int object has no attribute decode" ∧
    PGPHASHALGO 8 = some "sha256" ∧
    checksum_type ⟨none, none, none, none, none⟩ = .ok "md5" ∧
    checksum_type ⟨none, none, none, none, some 0⟩ = .ok "md5" :=
  ⟨rfl, rfl, rfl, rfl⟩

/-- Claim C5: `is_signed` returns 1 exactly when at least one of the
`siggpg`, `sigpgp` or `dsaheader` raw values is present and non-empty,
and returns 0 otherwise — in particular a header carrying only an
`rsaheader` value is reported unsigned. -/
theorem is_signed_iff (hdr : RPM_Header) :
    (is_signed hdr = 1 ↔
      ((∃ b, hdr.siggpg = some b ∧ b ≠ []) ∨ (∃ b, hdr.sigpgp = some b ∧ b ≠ []) ∨
       (∃ b, hdr.dsaheader = some b ∧ b ≠ []))) ∧
    (is_signed hdr = 0 ↔ ¬ is_signed hdr = 1) := by
  obtain ⟨d, r, g, p, f⟩ := hdr
  constructor
  · cases d <;> cases g <;> cases p <;>
      simp [is_signed, truthyBytes, List.isEmpty_iff] <;> tauto
  · cases d <;> cases g <;> cases p <;>
      simp [is_signed, truthyBytes, List.isEmpty_iff] <;> tauto

/-- Claim C6 (code bug): comparing two same-name NVRE tuples does not
complete with an ordering — under the Python 3 semantics this module
targets, `build_evr` rebinds `evr` to the lazy iterator `map(str, evr)`
and then subscripts it, so `nvre_compare` raises `TypeError` for every
same-name pair before `rpm.labelCompare` is ever reached. -/
theorem nvre_compare_same_name_typeerror :
    nvre_compare ⟨"pkg", "1.0", "1", ""⟩ ⟨"pkg", "1.0", "2", ""⟩ =
      .error "TypeError: map object is not subscriptable" := by
  rfl

/-- Claim C7: for every pair of NVRE tuples whose name fields differ,
`nvre_compare` raises the name-mismatch `ValueError` — independently of
the epoch, version and release fields, so before any epoch/version/release
comparison is attempted. -/
theorem nvre_compare_name_mismatch (t1 t2 : NVRE) (h : t1.name ≠ t2.name) :
    nvre_compare t1 t2 =
      .error "ValueError: You should only compare packages with the same name" := by
  unfold nvre_compare
  simp [h]

theorem nvre_compare_name_mismatch_witness :
    (NVRE.mk "foo" "1.0" "1" "").name ≠ (NVRE.mk "bar" "1.0" "1" "").name ∧
    nvre_compare ⟨"foo", "1.0", "1", ""⟩ ⟨"bar", "1.0", "1", ""⟩ =
      .error "ValueError: You should only compare packages with the same name" :=
  ⟨by decide, nvre_compare_name_mismatch ⟨"foo", "1.0", "1", ""⟩ ⟨"bar", "1.0", "1", ""⟩
    (by decide)⟩

lemma extractOne_type (t : String) (x : Option Bytes) (r : SignatureRecord)
    (h : extractOne t x = some r) : r.signature_type = t := by
  cases x with
  | none => simp [extractOne] at h
  | some b =>
    simp only [extractOne] at h
    split_ifs at h <;> simp_all
    rw [← h]

lemma filterMap_types_sublist (l : List (Option Bytes × String)) :
    List.Sublist ((l.filterMap fun p => extractOne p.2 p.1).map fun r => r.signature_type)
      (l.map fun p => p.2) := by
  induction l with
  | nil => simp
  | cons p l ih =>
    cases hx : extractOne p.2 p.1 with
    | none =>
      simp only [List.filterMap_cons, hx, List.map_cons]
      exact ih.cons _
    | some r =>
      simp only [List.filterMap_cons, hx, List.map_cons]
      rw [extractOne_type _ _ _ hx]
      exact ih.cons₂ _

/-- Claim C3: signature extraction skips absent values and raw values
shorter than 17 bytes; for a raw value of length `L ≥ 17` the key-id slice
is chosen by the first matching length condition — `L ≤ 65` gives bytes
`[9,17)`, `L ≤ 72` gives `[18,26)`, `L ≤ 536` gives `[10,18)`, otherwise
`[19,27)` — rendered as lowercase hex via `hexBytes`; and the records
appear in the fixed kind order `dsa, rsa, gpg, pgp` (the output's kind
sequence is a sublist of that list). -/
theorem extract_signatures_spec (hdr : RPM_Header) (t : String) (ret : Bytes) :
    extractOne t none = none ∧
    (ret.length < 17 → extractOne t (some ret) = none) ∧
    (17 ≤ ret.length → ret.length ≤ 65 →
      extractOne t (some ret) = some ⟨t, hexBytes ((ret.drop 9).take 8), ret⟩) ∧
    (66 ≤ ret.length → ret.length ≤ 72 →
      extractOne t (some ret) = some ⟨t, hexBytes ((ret.drop 18).take 8), ret⟩) ∧
    (73 ≤ ret.length → ret.length ≤ 536 →
      extractOne t (some ret) = some ⟨t, hexBytes ((ret.drop 10).take 8), ret⟩) ∧
    (537 ≤ ret.length →
      extractOne t (some ret) = some ⟨t, hexBytes ((ret.drop 19).take 8), ret⟩) ∧
    List.Sublist ((extract_signatures hdr).map fun r => r.signature_type)
      ["dsa", "rsa", "gpg", "pgp"] := by
  refine ⟨rfl, ?_, ?_, ?_, ?_, ?_, ?_⟩
  · intro h
    simp only [extractOne]
    split_ifs <;> first | rfl | omega
  · intro h1 h2
    simp only [extractOne, keyIdSlice]
    split_ifs <;> first | rfl | omega
  · intro h1 h2
    simp only [extractOne, keyIdSlice]
    split_ifs <;> first | rfl | omega
  · intro h1 h2
    simp only [extractOne, keyIdSlice]
    split_ifs <;> first | rfl | omega
  · intro h1
    simp only [extractOne, keyIdSlice]
    split_ifs <;> first | rfl | omega
  · have := filterMap_types_sublist
      [(hdr.dsaheader, "dsa"), (hdr.rsaheader, "rsa"),
       (hdr.siggpg, "gpg"), (hdr.sigpgp, "pgp")]
    simpa [extract_signatures] using this

theorem extract_signatures_spec_witness :
    17 ≤ (List.replicate 17 (0 : Byte)).length ∧
    (List.replicate 17 (0 : Byte)).length ≤ 65 ∧
    extractOne "dsa" (some (List.replicate 17 (0 : Byte))) =
      some ⟨"dsa", hexBytes (((List.replicate 17 (0 : Byte)).drop 9).take 8),
            List.replicate 17 (0 : Byte)⟩ :=
  ⟨by simp, by simp,
    (extract_signatures_spec ⟨none, none, none, none, none⟩ "dsa"
      (List.replicate 17 (0 : Byte))).2.2.1 (by simp) (by simp)⟩

lemma hexBytes_length (bs : Bytes) : (hexBytes bs).length = 2 * bs.length := by
  induction bs with
  | nil => rfl
  | cons b l ih =>
    simp only [hexBytes, String.length, List.map_cons, List.flatten_cons,
      List.length_append, hexByte, List.length_cons, List.length_nil] at *
    omega

lemma hexDigit_class (n : Nat) (h : n < 16) :
    (hexDigit n).isDigit = true ∨ ('a' ≤ hexDigit n ∧ hexDigit n ≤ 'f') := by
  interval_cases n <;> decide

lemma hexBytes_data (bs : Bytes) : (hexBytes bs).data = (bs.map hexByte).flatten := rfl

lemma hexBytes_chars (bs : Bytes) :
    ∀ c ∈ (hexBytes bs).data, c.isDigit = true ∨ ('a' ≤ c ∧ c ≤ 'f') := by
  induction bs with
  | nil => intro c hc; simp [hexBytes] at hc
  | cons b l ih =>
    intro c hc
    rw [hexBytes_data, List.map_cons, List.flatten_cons, List.mem_append] at hc
    rcases hc with hc | hc
    · have hb := b.isLt
      simp only [hexByte, List.mem_cons, List.not_mem_nil, or_false] at hc
      rcases hc with rfl | rfl
      · exact hexDigit_class (b.val / 16) (by omega)
      · exact hexDigit_class (b.val % 16) (by omega)
    · exact ih c (by rw [hexBytes_data]; exact hc)

lemma keyIdSlice_length (ret : Bytes) (h : 17 ≤ ret.length) :
    (keyIdSlice ret).length = 8 := by
  unfold keyIdSlice
  split_ifs <;> simp [List.length_take, List.length_drop] <;> omega

lemma extractOne_key (t : String) (x : Option Bytes) (r : SignatureRecord)
    (h : extractOne t x = some r) :
    ∃ b, x = some b ∧ 17 ≤ b.length ∧ r.key_id = hexBytes (keyIdSlice b) := by
  cases x with
  | none => simp [extractOne] at h
  | some b =>
    simp only [extractOne] at h
    split_ifs at h with h0 h17
    refine ⟨b, rfl, by omega, ?_⟩
    simp only [Option.some.injEq] at h
    rw [← h]

/-- Claim C10: every record produced by signature extraction carries a
`key_id` that is exactly 16 characters long and consists only of
lowercase hexadecimal digits (each selected slice is exactly 8 bytes,
each byte becoming two lowercase hex digits). -/
theorem key_id_hex16 (hdr : RPM_Header) (r : SignatureRecord)
    (h : r ∈ extract_signatures hdr) :
    r.key_id.length = 16 ∧
    ∀ c ∈ r.key_id.data, c.isDigit = true ∨ ('a' ≤ c ∧ c ≤ 'f') := by
  unfold extract_signatures at h
  rw [List.mem_filterMap] at h
  obtain ⟨p, _, hp⟩ := h
  obtain ⟨b, hx, hlen, hkey⟩ := extractOne_key _ _ _ hp
  refine ⟨?_, ?_⟩
  · rw [hkey, hexBytes_length, keyIdSlice_length b hlen]
  · rw [hkey]
    exact hexBytes_chars _

theorem key_id_hex16_witness :
    (⟨"dsa", hexBytes (keyIdSlice (List.replicate 17 (0 : Byte))),
       List.replicate 17 (0 : Byte)⟩ : SignatureRecord) ∈
      extract_signatures ⟨some (List.replicate 17 (0 : Byte)), none, none, none, none⟩ ∧
    ((⟨"dsa", hexBytes (keyIdSlice (List.replicate 17 (0 : Byte))),
       List.replicate 17 (0 : Byte)⟩ : SignatureRecord).key_id.length = 16 ∧
     ∀ c ∈ (⟨"dsa", hexBytes (keyIdSlice (List.replicate 17 (0 : Byte))),
       List.replicate 17 (0 : Byte)⟩ : SignatureRecord).key_id.data,
       c.isDigit = true ∨ ('a' ≤ c ∧ c ≤ 'f')) :=
  ⟨by decide, key_id_hex16 ⟨some (List.replicate 17 (0 : Byte)), none, none, none, none⟩ _
    (by decide)⟩

/-- Witness for claim C2 at a concrete 128-byte all-zero source. -/
theorem get_header_byte_range_locates_witness :
    get_header_byte_range ⟨List.replicate 128 (0 : Byte), 0⟩ = .ok (112, 128) ∧
    ∃ sig_size s1 header_size s2,
      get_header_struct_size ⟨(ByteSource.mk (List.replicate 128 (0 : Byte)) 0).data, 96⟩ =
        .ok (sig_size, s1) ∧
      get_header_struct_size ⟨(ByteSource.mk (List.replicate 128 (0 : Byte)) 0).data,
        96 + sig_size⟩ = .ok (header_size, s2) ∧
      112 = 96 + sig_size ∧ 128 = 96 + sig_size + header_size :=
  ⟨rfl, get_header_byte_range_locates ⟨List.replicate 128 (0 : Byte), 0⟩ 112 128 rfl⟩

/-- Witness for claim C8 at a concrete 16-byte all-zero source. -/
theorem get_header_struct_size_fits64_witness :
    get_header_struct_size ⟨List.replicate 16 (0 : Byte), 0⟩ =
      .ok (16, ⟨List.replicate 16 (0 : Byte), 16⟩) ∧ (16 : Nat) < 2 ^ 64 :=
  ⟨rfl, get_header_struct_size_fits64 ⟨List.replicate 16 (0 : Byte), 0⟩ 16
    ⟨List.replicate 16 (0 : Byte), 16⟩ rfl⟩
